import Mathlib

/-!
Verification of the matching / version-parsing engine of `pythonfinder`
(`src/pythonfinder/utils.py`), shallowly embedded in Lean.

Python strings are modelled as Lean `String` (operated on through their
`List Char` data, with ASCII case folding: all relevant constants are
ASCII).  The POSIX branch of the module-initialisation code is modelled
(`os.name != "nt"`, and an empty `PATHEXT` environment variable), which is
the platform the specification's POSIX examples refer to.
-/

set_option maxRecDepth 100000

namespace PythonFinder

/-! ### Character helpers (ASCII models of `str` methods used by the code) -/

/-- ASCII decimal digit test: the role of `\d` / `[0-9]` in the module's
regexes and of `str.isdigit` on the inputs in scope (all ASCII). -/
def pyIsDigit (c : Char) : Bool :=
  match c with
  | '0' => true | '1' => true | '2' => true | '3' => true | '4' => true
  | '5' => true | '6' => true | '7' => true | '8' => true | '9' => true
  | _ => false

/-- ASCII lower-casing of a single character, the effect of `str.lower` on
the ASCII inputs in scope. -/
def asciiLower (c : Char) : Char :=
  match c with
  | 'A' => 'a' | 'B' => 'b' | 'C' => 'c' | 'D' => 'd' | 'E' => 'e'
  | 'F' => 'f' | 'G' => 'g' | 'H' => 'h' | 'I' => 'i' | 'J' => 'j'
  | 'K' => 'k' | 'L' => 'l' | 'M' => 'm' | 'N' => 'n' | 'O' => 'o'
  | 'P' => 'p' | 'Q' => 'q' | 'R' => 'r' | 'S' => 's' | 'T' => 't'
  | 'U' => 'u' | 'V' => 'v' | 'W' => 'w' | 'X' => 'x' | 'Y' => 'y'
  | 'Z' => 'z' | c => c

/-- `str.lower` (ASCII model). -/
def pyLower (s : String) : String := String.mk (s.data.map asciiLower)

/-- `str.startswith` (on strings). -/
def pyStartsWith (s p : String) : Bool := p.data.isPrefixOf s.data

/-- `str.endswith` (on strings). -/
def pyEndsWith (s p : String) : Bool := p.data.isSuffixOf s.data

/-- All suffixes of a list (including the list itself and `[]`). -/
def sufs : List Char → List (List Char)
  | [] => [[]]
  | c :: cs => (c :: cs) :: sufs cs

/-- Python's substring operator `needle in hay` (on strings). -/
def containsSub (needle hay : List Char) : Bool :=
  (sufs hay).any (fun t => needle.isPrefixOf t)

/-- Numeric value of a decimal digit character. -/
def digitVal (c : Char) : Nat :=
  match c with
  | '0' => 0 | '1' => 1 | '2' => 2 | '3' => 3 | '4' => 4
  | '5' => 5 | '6' => 6 | '7' => 7 | '8' => 8 | '9' => 9
  | _ => 0

/-- Python `int(...)` on a (non-empty) string of decimal digits. -/
def digitsToNat (ds : List Char) : Nat :=
  ds.foldl (fun n c => n * 10 + digitVal c) 0

/-- Python truthiness of a string: non-empty. -/
def pyTruthy (s : String) : Bool := !s.data.isEmpty

/-! ### Module-level tables (`utils.py` lines 35-75) -/

/-- `PYTHON_IMPLEMENTATIONS` (utils.py line 35). -/
def PYTHON_IMPLEMENTATIONS : List String :=
  ["python", "ironpython", "jython", "pypy", "anaconda", "miniconda",
   "stackless", "activepython", "pyston", "micropython"]

/-- `KNOWN_EXTS` (utils.py lines 47-53), POSIX branch (`os.name != "nt"`),
with an empty `PATHEXT` environment variable.  The source builds a `set`;
it is only ever consumed through membership tests and `any`, so a list
model is order-insensitive for all uses. -/
def KNOWN_EXTS : List String := ["sh", "bash", "csh", "zsh", "fish", "py", ""]

/-! ### Path model

The filesystem facts `path_is_known_executable` consults are the outcomes
of `os.access(path, os.X_OK)` / `os.access(path, os.R_OK)` and the path's
final component; they are modelled as fields of a record. -/

/-- A filesystem path as seen by the classifier: its final component
(`Path.name`) and the two permission-check outcomes. -/
structure PyPath where
  name : String
  executable : Bool
  readable : Bool

/-- Index of the last occurrence of `c` in the list, if any
(`str.rfind`). -/
def lastIdxOf (c : Char) : List Char → Option Nat
  | [] => none
  | a :: as =>
    match lastIdxOf c as with
    | some j => some (j + 1)
    | none => if a == c then some 0 else none

/-- `pathlib.PurePath.suffix` of a file name: the substring from the last
dot on, including the dot, unless that dot is the first or last character
(then `""`). -/
def pySuffix (name : String) : String :=
  match lastIdxOf '.' name.data with
  | none => ""
  | some i =>
    if 0 < i && i < name.data.length - 1 then String.mk (name.data.drop i)
    else ""

/-- The extension of a file name without its leading dot — the sense in
which the spec's `KnownExtensionSet` (whose members are dotless) speaks of
"its extension". -/
def extensionOf (name : String) : String :=
  match (pySuffix name).data with
  | '.' :: cs => String.mk cs
  | _ => pySuffix name

/-- `path_is_executable` (utils.py line 170): outcome of
`os.access(path, os.X_OK)`. -/
def path_is_executable (p : PyPath) : Bool := p.executable

/-- `path_is_known_executable` (utils.py lines 181-197):
`path_is_executable(path) or os.access(str(path), os.R_OK) and
path.suffix in KNOWN_EXTS` (Python precedence: `a or (b and c)`).
Note the source compares `path.suffix` — which keeps its leading dot —
against the dotless members of `KNOWN_EXTS`. -/
def path_is_known_executable (p : PyPath) : Bool :=
  path_is_executable p || (p.readable && KNOWN_EXTS.contains (pySuffix p.name))

/-! ### Company inference (`utils.py` lines 232-261) -/

/-- The list comprehension
`[impl for impl in PYTHON_IMPLEMENTATIONS if impl != "python"]`
(utils.py line 240). -/
def nonCorePythons : List String :=
  PYTHON_IMPLEMENTATIONS.filter (fun impl => impl != "python")

/-- `guess_company` (utils.py lines 232-243):
`next(iter(impl for impl in non_core_pythons if impl in path.lower()), "PythonCore")`. -/
def guess_company (path : String) : String :=
  match nonCorePythons.find? (fun impl => containsSub impl.data (pyLower path).data) with
  | some impl => impl
  | none => "PythonCore"

/-- `path_is_pythoncore` (utils.py lines 246-261):
`company = guess_company(path); if company: return company == "PythonCore"; return False`. -/
def path_is_pythoncore (path : String) : Bool :=
  let company := guess_company path
  if company.data.isEmpty then false else company == "PythonCore"

/-! ### NameMatcher (`utils.py` lines 54-75 and 200-215) -/

/-- `RULES_BASE` (utils.py lines 62-70), each glob template represented as
the substitution `rule.format(impl)` performs on it. -/
def RULES_BASE : List (String → String) :=
  [fun impl => "*" ++ impl,
   fun impl => "*" ++ impl ++ "?",
   fun impl => "*" ++ impl ++ "?.?",
   fun impl => "*" ++ impl ++ "?.?m",
   fun impl => impl ++ "?-?.?",
   fun impl => impl ++ "?-?.?.?",
   fun impl => impl ++ "?.?-?.?.?"]

/-- `RULES` (utils.py line 71):
`[rule.format(impl) for impl in PYTHON_IMPLEMENTATIONS for rule in RULES_BASE]`. -/
def RULES : List String :=
  PYTHON_IMPLEMENTATIONS.flatMap (fun impl => RULES_BASE.map (fun rule => rule impl))

/-- `MATCH_RULES` (utils.py lines 73-75):
for each rule, `f"{rule}.{ext}" if ext else f"{rule}"` over `KNOWN_EXTS`
(a set in the source; only consumed by `any`, so list order is
irrelevant). -/
def MATCH_RULES : List String :=
  RULES.flatMap (fun rule =>
    KNOWN_EXTS.map (fun ext => if pyTruthy ext then rule ++ "." ++ ext else rule))

/-- Shell-glob full match over characters: `*` matches any sequence, `?`
any single character, any other pattern character matches itself.  The
generated patterns contain no `[...]` classes. -/
def globMatch : List Char → List Char → Bool
  | [], s => s.isEmpty
  | '*' :: ps, s => (sufs s).any (fun t => globMatch ps t)
  | '?' :: ps, s =>
    match s with
    | [] => false
    | _ :: t => globMatch ps t
  | c :: ps, s =>
    match s with
    | [] => false
    | d :: t => c == d && globMatch ps t

/-- `fnmatch.fnmatch(name, pat)` on POSIX, where `os.path.normcase` is the
identity: a case-sensitive glob full-match. -/
def fnmatchB (name pat : String) : Bool := globMatch pat.data name.data

/-- Does the string start with an ASCII digit?  `version_re_str`
(utils.py lines 27-31) begins with the mandatory group `(?P<major>\d+)`
and every later element of the pattern is optional, so
`re.match(version_re_str, s)` succeeds exactly when `s` starts with a
digit. -/
def startsWithDigitB : List Char → Bool
  | [] => false
  | c :: _ => pyIsDigit c

/-- The negative lookahead `(?!w)` of `PY_MATCH_STR` at position `n`:
fails exactly when the character at `n` is `w`. -/
def tailOk (cs : List Char) (n : Nat) : Bool :=
  match cs.drop n with
  | [] => true
  | c :: _ => c != 'w'

/-- Anchored match of `PY_MATCH_STR` (utils.py lines 54-58):
`((?P<implementation>python|ironpython|...)(?:\d?(?:\.\d[cpm]{0,3}))?(?:-?[\d\.]+)*(?!w))`.
An alternative of the `implementation` group must match at position 0,
i.e. be a literal prefix of the name.  Both quantified groups after it
are optional and consume only characters from `0-9 . c p m -` — never a
`w` — so, by backtracking, the whole pattern matches exactly when some
implementation name is a prefix and the character right after that prefix
(where the match can always end with both groups empty) is not `w`: if it
is `w`, no extent of the two groups can move the match end past it, and
the lookahead `(?!w)` fails for every extent. -/
def pyMatchAccepts (cs : List Char) : Bool :=
  PYTHON_IMPLEMENTATIONS.any (fun impl =>
    impl.data.isPrefixOf cs && tailOk cs impl.data.length)

/-- Anchored match (truthiness of `RE_MATCHER.match(name)`) of
`RE_MATCHER = re.compile(rf"({version_re_str}|{PY_MATCH_STR})")`
(utils.py line 60): the left alternative matches at 0 exactly when the
name starts with a digit, the right one is `PY_MATCH_STR`. -/
def reMatcherAccepts (name : String) : Bool :=
  startsWithDigitB name.data || pyMatchAccepts name.data

/-- `looks_like_python` (utils.py lines 200-215). -/
def looks_like_python (name : String) : Bool :=
  if !PYTHON_IMPLEMENTATIONS.any (fun py => pyStartsWith (pyLower name) py) then
    false
  else if reMatcherAccepts name then
    MATCH_RULES.any (fun rule => fnmatchB name rule)
  else
    false

/-- `path_is_python` (utils.py lines 218-229). -/
def path_is_python (p : PyPath) : Bool :=
  path_is_executable p && looks_like_python p.name

/-! ### VersionParser: `version_re` (utils.py lines 27-32)

`version_re_str` is
`(?P<major>\d+)(?:\.(?P<minor>\d+))?(?:\.(?P<patch>(?<=\.)[0-9]+))?\.?`
`(?:(?P<prerel>[abc]|rc|dev)(?:(?P<prerelversion>\d+(?:\.\d+)*))?)?`
`(?P<postdev>(\.post(?P<post>\d+))?(\.dev(?P<dev>\d+))?)?`.

`re.match` against it is deterministic: after the mandatory `\d+` every
element of the pattern is optional, so the match found is the one where
every greedy choice is kept (no later failure can force backtracking),
and each optional group either consumes its full shape or nothing.  The
lookbehind `(?<=\.)` in the patch group always holds where it is tested
(a `\.` was just consumed). -/

/-- The named groups of a `version_re` match.  A group holds `none` when
it did not participate; `postdev` participates (possibly as `""`)
whenever the match reaches it, which is always. -/
structure VGroups where
  major : Option String
  minor : Option String
  patch : Option String
  prerel : Option String
  prerelversion : Option String
  postdev : Option String
  post : Option String
  dev : Option String
deriving DecidableEq

/-- One optional `(?:\.(?P<g>\d+))?` step: consume a dot followed by at
least one digit, or nothing. -/
def grabDotDigits (cs : List Char) : Option (List Char) × List Char :=
  match cs with
  | '.' :: rest =>
    let ds := rest.takeWhile pyIsDigit
    if ds.isEmpty then (none, cs) else (some ds, rest.dropWhile pyIsDigit)
  | _ => (none, cs)

/-- The optional literal `\.?`. -/
def skipDot (cs : List Char) : List Char :=
  match cs with
  | '.' :: rest => rest
  | _ => cs

/-- The alternation `[abc]|rc|dev` of the `prerel` group (first matching
alternative wins; the alternatives have disjoint first characters except
that `[abc]` is tried before `rc` and `dev`, which start with other
letters). -/
def grabPrerel (cs : List Char) : Option (List Char) × List Char :=
  match cs with
  | 'a' :: rest => (some ['a'], rest)
  | 'b' :: rest => (some ['b'], rest)
  | 'c' :: rest => (some ['c'], rest)
  | 'r' :: 'c' :: rest => (some ['r', 'c'], rest)
  | 'd' :: 'e' :: 'v' :: rest => (some ['d', 'e', 'v'], rest)
  | _ => (none, cs)

/-- Greedy `(?:\.\d+)*`: consume as many dot-digits blocks as possible,
returning the consumed text and the rest.  The fuel argument (any upper
bound on the input length) only drives structural termination; each step
consumes at least two characters. -/
def dottedTail : Nat → List Char → List Char × List Char
  | 0, cs => ([], cs)
  | fuel + 1, cs =>
    match cs with
    | '.' :: rest =>
      let ds := rest.takeWhile pyIsDigit
      if ds.isEmpty then ([], cs)
      else
        let more := dottedTail fuel (rest.dropWhile pyIsDigit)
        ('.' :: ds ++ more.1, more.2)
    | _ => ([], cs)

/-- The `prerelversion` group `(?:(?P<prerelversion>\d+(?:\.\d+)*))?`,
which is only reached when `prerel` participated. -/
def grabPrerelVersion (prerel : Option (List Char)) (cs : List Char) :
    Option (List Char) × List Char :=
  match prerel with
  | none => (none, cs)
  | some _ =>
    let ds := cs.takeWhile pyIsDigit
    if ds.isEmpty then (none, cs)
    else
      let rest := cs.dropWhile pyIsDigit
      let more := dottedTail rest.length rest
      (some (ds ++ more.1), more.2)

/-- One optional `(\.kw(?P<g>\d+))?` step (`kw` is `post` or `dev`):
all-or-nothing, like the regex group. -/
def grabDotKw (kw : List Char) (cs : List Char) : Option (List Char) × List Char :=
  if ('.' :: kw).isPrefixOf cs then
    let rest := cs.drop (kw.length + 1)
    let ds := rest.takeWhile pyIsDigit
    if ds.isEmpty then (none, cs) else (some ds, rest.dropWhile pyIsDigit)
  else (none, cs)

/-- The text matched by the `postdev` group, rebuilt from its two inner
groups. -/
def postdevText (post dev : Option (List Char)) : List Char :=
  (match post with
   | some ds => '.' :: 'p' :: 'o' :: 's' :: 't' :: ds
   | none => []) ++
  (match dev with
   | some ds => '.' :: 'd' :: 'e' :: 'v' :: ds
   | none => [])

/-- `version_re.match(s)` (utils.py line 116): `none` when the match
fails (no leading digit), otherwise the named groups. -/
def versionReMatch (s : String) : Option VGroups :=
  let cs := s.data
  let maj := cs.takeWhile pyIsDigit
  if maj.isEmpty then none
  else
    let r0 := cs.dropWhile pyIsDigit
    let m1 := grabDotDigits r0
    let m2 := grabDotDigits m1.2
    let r3 := skipDot m2.2
    let p1 := grabPrerel r3
    let p2 := grabPrerelVersion p1.1 p1.2
    let q1 := grabDotKw ['p', 'o', 's', 't'] p2.2
    let q2 := grabDotKw ['d', 'e', 'v'] q1.2
    some {
      major := some (String.mk maj)
      minor := m1.1.map String.mk
      patch := m2.1.map String.mk
      prerel := p1.1.map String.mk
      prerelversion := p2.1.map String.mk
      post := q1.1.map String.mk
      dev := q2.1.map String.mk
      postdev := some (String.mk (postdevText q1.1 q2.1)) }

/-! ### The strict normalizer (external `packaging` library) -/

/-- PEP 440 separator characters. -/
def isSepChar (c : Char) : Bool := c == '-' || c == '_' || c == '.'

/-- Lower-case ASCII alphanumeric (PEP 440 local-segment alphabet, after
case folding). -/
def isAlnumLower (c : Char) : Bool :=
  pyIsDigit c || (97 ≤ c.toNat && c.toNat ≤ 122)

/-- ASCII whitespace, the `\s` stripped around a PEP 440 version. -/
def pyIsSpace (c : Char) : Bool :=
  c == ' ' || c == '\t' || c == '\n' || c == '\r' || c == '\x0b' || c == '\x0c'

/-- Strip whitespace from both ends. -/
def stripWs (cs : List Char) : List Char :=
  ((cs.dropWhile pyIsSpace).reverse.dropWhile pyIsSpace).reverse

/-- The optional PEP 440 epoch `(?:(?P<epoch>[0-9]+)!)?`: all-or-nothing. -/
def pepEpoch (cs : List Char) : List Char :=
  let ds := cs.takeWhile pyIsDigit
  if ds.isEmpty then cs
  else
    match cs.dropWhile pyIsDigit with
    | '!' :: rest => rest
    | _ => cs

/-- An optional single PEP 440 separator `[-_\.]?` (greedy). -/
def skipSep (cs : List Char) : List Char :=
  match cs with
  | c :: rest => if isSepChar c then rest else cs
  | [] => []

/-- First keyword of the list that is a prefix of the input, with the
rest of the input.  Keyword lists below are ordered so that a keyword
always precedes its own proper prefixes (maximal munch), which yields the
same accepted language as the regex alternation with backtracking. -/
def firstKw (kws : List (List Char)) (cs : List Char) : Option (List Char × List Char) :=
  match kws with
  | [] => none
  | kw :: rest =>
    if kw.isPrefixOf cs then some (kw, cs.drop kw.length) else firstKw rest cs

/-- PEP 440 pre-release keywords, longest first. -/
def preKws : List (List Char) :=
  [['a','l','p','h','a'], ['b','e','t','a'], ['p','r','e','v','i','e','w'],
   ['p','r','e'], ['r','c'], ['a'], ['b'], ['c']]

/-- PEP 440 post-release keywords, longest first. -/
def postKws : List (List Char) := [['p','o','s','t'], ['r','e','v'], ['r']]

/-- The optional PEP 440 pre-release segment
`([-_\.]?(alpha|a|beta|b|preview|pre|c|rc)[-_\.]?[0-9]*)?`:
all-or-nothing on the keyword. -/
def pepPre (cs : List Char) : List Char :=
  match firstKw preKws (skipSep cs) with
  | none => cs
  | some kwrest => (skipSep kwrest.2).dropWhile pyIsDigit

/-- The second alternative of the PEP 440 post-release segment:
`[-_\.]?(post|rev|r)[-_\.]?[0-9]*`. -/
def pepPostAlt2 (cs : List Char) : List Char :=
  match firstKw postKws (skipSep cs) with
  | none => cs
  | some kwrest => (skipSep kwrest.2).dropWhile pyIsDigit

/-- The optional PEP 440 post-release segment
`((?:-(?P<post_n1>[0-9]+))|(?:[-_\.]?(post|rev|r)[-_\.]?[0-9]*))?`. -/
def pepPost (cs : List Char) : List Char :=
  match cs with
  | '-' :: rest =>
    let ds := rest.takeWhile pyIsDigit
    if !ds.isEmpty then rest.dropWhile pyIsDigit else pepPostAlt2 cs
  | _ => pepPostAlt2 cs

/-- The optional PEP 440 dev-release segment `([-_\.]?dev[-_\.]?[0-9]*)?`. -/
def pepDev (cs : List Char) : List Char :=
  let afterSep := skipSep cs
  if (['d','e','v']).isPrefixOf afterSep then
    (skipSep (afterSep.drop 3)).dropWhile pyIsDigit
  else cs

/-- Greedy `(?:[-_\.][a-z0-9]+)*` of the local segment; fueled like
`dottedTail`. -/
def sepAlnumTail : Nat → List Char → List Char
  | 0, cs => cs
  | fuel + 1, cs =>
    match cs with
    | c :: rest =>
      if isSepChar c then
        let ds := rest.takeWhile isAlnumLower
        if ds.isEmpty then cs else sepAlnumTail fuel (rest.dropWhile isAlnumLower)
      else cs
    | [] => []

/-- The optional PEP 440 local segment
`(?:\+(?P<local>[a-z0-9]+(?:[-_\.][a-z0-9]+)*))?`: all-or-nothing (an
unconsumed `+...` remainder rejects the whole string). -/
def pepLocal (cs : List Char) : List Char :=
  match cs with
  | '+' :: rest =>
    let ds := rest.takeWhile isAlnumLower
    if ds.isEmpty then cs else sepAlnumTail rest.length (rest.dropWhile isAlnumLower)
  | _ => cs

/-- Modelled from the spec: the external strict version-normalization
library (`packaging.version.parse` / `packaging.version.Version`), which
`utils.py` imports but whose code is not part of this repository.  Spec
§6 describes it as "a strict version-normalization library function
normalize(string) -> ComparableVersion | raises"; concretely it fully
matches the public PEP 440 version grammar, case-insensitively and with
surrounding whitespace allowed:
`v? [N!] N(.N)* [sep? (a|b|c|rc|alpha|beta|pre|preview) sep? N?]`
`[-N | sep? (post|rev|r) sep? N?] [sep? dev sep? N?] [+local]`
with `sep` one of `- _ .`.  Only acceptance (normal return versus a
raised `InvalidVersion`) is modelled, because the code paths verified
here use nothing else of the returned object. -/
def pep440Accepts (s : String) : Bool :=
  let cs := (stripWs s.data).map asciiLower
  let cs := match cs with
    | 'v' :: rest => rest
    | other => other
  let cs := pepEpoch cs
  let ds := cs.takeWhile pyIsDigit
  if ds.isEmpty then false
  else
    let rest := cs.dropWhile pyIsDigit
    let afterRelease := (dottedTail rest.length rest).2
    (pepLocal (pepDev (pepPost (pepPre afterRelease)))).isEmpty

/-! ### `parse_python_version` (utils.py lines 108-156) -/

/-- The result record of `parse_python_version`.  `version` stands for
the `Version` object produced by the strict normalizer; only the string
it successfully normalized is recorded. -/
structure PyVersionInfo where
  major : Option Nat
  minor : Option Nat
  patch : Option Nat
  is_postrelease : Bool
  is_prerelease : Bool
  is_devrelease : Bool
  is_debug : Bool
  version : Option String
deriving DecidableEq

/-- The exceptions that can escape `parse_python_version`:
its own `InvalidPythonVersion` (utils.py line 118) and the strict
normalizer's `InvalidVersion` when raised outside the `try` block. -/
inductive ParseError where
  | invalidPythonVersion (msg : String)
  | invalidVersion (ver : String)
deriving DecidableEq

/-- `int(version_dict.get(k, 0)) if version_dict.get(k) else None`
(utils.py lines 120-122): `None` for an absent or empty group, the
decimal value otherwise. -/
def optIntOfGroup (o : Option String) : Option Nat :=
  match o with
  | none => none
  | some d => if d.data.isEmpty then none else some (digitsToNat d.data)

/-- `True if version_dict.get(k) else False` (utils.py lines 123-125). -/
def pyTruthyOpt (o : Option String) : Bool :=
  match o with
  | none => false
  | some s => pyTruthy s

/-- Characters strictly before the last occurrence of `sep`, if `sep`
occurs. -/
def rpartAux (sep : Char) : List Char → Option (List Char)
  | [] => none
  | c :: cs =>
    match rpartAux sep cs with
    | some t => some (c :: t)
    | none => if c == sep then some [] else none

/-- Head of `str.rpartition(sep)` (utils.py line 115): everything before
the last occurrence of `sep`, and `""` when `sep` does not occur. -/
def rpartitionHead (s : String) (sep : Char) : String :=
  match rpartAux sep s.data with
  | some t => String.mk t
  | none => ""

/-- Lines 112-115: detect a trailing `-debug`, record `is_debug`, and
keep `version_str.rpartition("-")[0]`. -/
def stripDebug (s : String) : String × Bool :=
  if pyEndsWith s "-debug" then (rpartitionHead s '-', true) else (s, false)

/-- Lines 138-142: `pre = prerel + prerelversion` when both groups are
truthy, else `""`. -/
def preOf (g : VGroups) : String :=
  match g.prerel, g.prerelversion with
  | some p, some pv => if pyTruthy p && pyTruthy pv then p ++ pv else ""
  | _, _ => ""

/-- `".".join(...)`. -/
def joinDots : List String → String
  | [] => ""
  | [s] => s
  | s :: rest => s ++ "." ++ joinDots rest

/-- Lines 143-145: the reconstructed canonical dotted string
`".".join(str(v) for v in values if v)` over the values of
`["major", "minor", "patch", "pre", "postdev", "post", "dev"]`. -/
def canonicalOf (g : VGroups) : String :=
  let vals : List (Option String) :=
    [g.major, g.minor, g.patch, some (preOf g), g.postdev, g.post, g.dev]
  joinDots ((vals.filterMap id).filter pyTruthy)

/-- Lines 147-156: the returned dictionary, given the match groups, the
debug flag and the string the normalizer accepted. -/
def mkInfo (g : VGroups) (isDebug : Bool) (version : String) : PyVersionInfo :=
  { major := optIntOfGroup g.major
    minor := optIntOfGroup g.minor
    patch := optIntOfGroup g.patch
    is_postrelease := pyTruthyOpt g.post
    is_prerelease := pyTruthyOpt g.prerel
    is_devrelease := pyTruthyOpt g.dev
    is_debug := isDebug
    version := some version }

/-- The body of `parse_python_version` after the `-debug` stripping
(utils.py lines 116-156): match `version_re` (raising
`InvalidPythonVersion` on failure), try the strict normalizer on the
stripped string (its `InvalidVersion` is caught, line 133), and on
failure retry it on the reconstructed canonical string — this second
call (line 146) is outside any `try`, so its `InvalidVersion`
propagates. -/
def parsePostStrip (vs : String) (isDebug : Bool) : Except ParseError PyVersionInfo :=
  match versionReMatch vs with
  | none => .error (.invalidPythonVersion vs)
  | some g =>
    if pep440Accepts vs then .ok (mkInfo g isDebug vs)
    else
      let canonical := canonicalOf g
      if pep440Accepts canonical then .ok (mkInfo g isDebug canonical)
      else .error (.invalidVersion canonical)

/-- `parse_python_version` (utils.py lines 108-156). -/
def parse_python_version (s : String) : Except ParseError PyVersionInfo :=
  let sd := stripDebug s
  parsePostStrip sd.1 sd.2

/-! ### Helper lemmas -/

/-- `find?` returns the element at the first index whose test holds. -/
theorem find?_eq_of_first {α : Type} (l : List α) (f : α → Bool) :
    ∀ k, (hk : k < l.length) → f l[k] = true →
      (∀ j, (hj : j < l.length) → j < k → f l[j] = false) →
      l.find? f = some l[k] := by
  induction l with
  | nil => intro k hk _ _; simp at hk
  | cons a as ih =>
    intro k hk hfk hbefore
    cases k with
    | zero =>
      simp only [List.getElem_cons_zero] at hfk ⊢
      simp [List.find?_cons_of_pos, hfk]
    | succ k =>
      have ha : f a = false := hbefore 0 (by simp) (Nat.succ_pos k)
      rw [List.getElem_cons_succ] at hfk ⊢
      rw [List.find?_cons_of_neg _ (by simp [ha])]
      exact ih k (by simpa using hk) hfk (fun j hj hjk => by
        have := hbefore (j + 1) (by simpa using hj) (Nat.succ_lt_succ hjk)
        simpa using this)

/-! ### Claim C1 -/

/-- C1: the claim states `path_is_known_executable(path)` is true iff the
path is executable or readable with its extension in `KnownExtensionSet`.
On a readable, non-executable file named `foo.py` the extension `py` is
in the set, yet the function returns `false`: the source compares
`path.suffix` — which keeps its leading dot, `.py` — against the dotless
members of `KNOWN_EXTS`, so the extension clause can only ever fire for
extensionless files. -/
theorem path_is_known_executable_dotted_suffix_bug :
    (PyPath.mk "foo.py" false true).readable = true ∧
    (PyPath.mk "foo.py" false true).executable = false ∧
    extensionOf "foo.py" = "py" ∧
    KNOWN_EXTS.contains (extensionOf "foo.py") = true ∧
    pySuffix "foo.py" = ".py" ∧
    KNOWN_EXTS.contains (pySuffix "foo.py") = false ∧
    path_is_known_executable (PyPath.mk "foo.py" false true) = false := by
  decide

/-! ### Claims C6 and C7 -/

/-- C6: `guess_company` returns the first non-core implementation name,
in declared table order (`ironpython, jython, pypy, anaconda, miniconda,
stackless, activepython, pyston, micropython`), that occurs
case-insensitively as a substring of the path, and `"PythonCore"` when
none occurs; in particular `guess_company("/usr/bin/pypy3") = "pypy"` and
`guess_company("/usr/bin/python3.9") = "PythonCore"`. -/
theorem guess_company_first_match_spec (p : String) :
    nonCorePythons = ["ironpython", "jython", "pypy", "anaconda", "miniconda",
      "stackless", "activepython", "pyston", "micropython"] ∧
    guess_company "/usr/bin/pypy3" = "pypy" ∧
    guess_company "/usr/bin/python3.9" = "PythonCore" ∧
    ((∀ impl ∈ nonCorePythons, containsSub impl.data (pyLower p).data = false) →
      guess_company p = "PythonCore") ∧
    (∀ k, (hk : k < nonCorePythons.length) →
      containsSub (nonCorePythons[k]).data (pyLower p).data = true →
      (∀ j, (hj : j < nonCorePythons.length) → j < k →
        containsSub (nonCorePythons[j]).data (pyLower p).data = false) →
      guess_company p = nonCorePythons[k]) := by
  refine ⟨by decide, by decide, by decide, ?_, ?_⟩
  case _ =>
    intro hall
    have hnone : nonCorePythons.find?
        (fun impl => containsSub impl.data (pyLower p).data) = none := by
      rw [List.find?_eq_none]
      intro x hx
      simp [hall x hx]
    simp [guess_company, hnone]
  case _ =>
    intro k hk hfk hbefore
    have := find?_eq_of_first nonCorePythons
      (fun impl => containsSub impl.data (pyLower p).data) k hk hfk hbefore
    simp [guess_company, this]

/-- C6 witness: applying the theorem's "no match" clause at a path
containing no non-core implementation name. -/
theorem guess_company_first_match_spec_witness :
    guess_company "/home/user/bin" = "PythonCore" :=
  (guess_company_first_match_spec "/home/user/bin").2.2.2.1 (by decide)

/-- C7: `path_is_pythoncore(p)` is true iff `guess_company(p)` equals
`"PythonCore"` (the truthiness guard in the source never fires because
`guess_company` always returns a non-empty string). -/
theorem path_is_pythoncore_iff_guess_company_core (p : String) :
    path_is_pythoncore p = true ↔ guess_company p = "PythonCore" := by
  have hne : (guess_company p).data.isEmpty = false := by
    unfold guess_company
    cases hf : nonCorePythons.find?
        (fun impl => containsSub impl.data (pyLower p).data) with
    | none => decide
    | some x =>
      have hx : x ∈ nonCorePythons := List.mem_of_find?_eq_some hf
      have hall : ∀ y ∈ nonCorePythons, y.data.isEmpty = false := by decide
      simpa using hall x hx
  unfold path_is_pythoncore
  simp [hne]

/-- C7 witness: the theorem applied at a concrete core path. -/
theorem path_is_pythoncore_iff_guess_company_core_witness :
    path_is_pythoncore "/usr/bin/python3.9" = true :=
  (path_is_pythoncore_iff_guess_company_core "/usr/bin/python3.9").mpr (by decide)

/-! ### Claim C3 -/

/-- C3 counterexample: `pythonw` starts with the implementation name
`python` and matches the `MATCH_RULES` glob `*python?`, yet
`looks_like_python` returns `false` — the claim omits the name-grammar
(`RE_MATCHER`) step, whose `(?!w)` lookahead rejects the name. -/
theorem looks_like_python_rule_match_not_sufficient :
    PYTHON_IMPLEMENTATIONS.any (fun py => pyStartsWith (pyLower "pythonw") py) = true ∧
    MATCH_RULES.any (fun rule => fnmatchB "pythonw" rule) = true ∧
    looks_like_python "pythonw" = false := by
  decide

/-- C3 (amended): for every name that starts (case-insensitively) with a
recognized implementation name, is accepted by the name-grammar regex
`RE_MATCHER`, and matches at least one MatchRule glob pattern,
`looks_like_python(name)` returns true; and for every name that starts
with no recognized implementation name it returns false regardless of
extension. -/
theorem looks_like_python_prefix_grammar_rules (name : String) :
    (PYTHON_IMPLEMENTATIONS.any (fun py => pyStartsWith (pyLower name) py) = true →
      reMatcherAccepts name = true →
      MATCH_RULES.any (fun rule => fnmatchB name rule) = true →
      looks_like_python name = true) ∧
    (PYTHON_IMPLEMENTATIONS.any (fun py => pyStartsWith (pyLower name) py) = false →
      looks_like_python name = false) := by
  constructor
  · intro h1 h2 h3
    simp [looks_like_python, h1, h2, h3]
  · intro h1
    simp [looks_like_python, h1]

/-- C3 witness: the amended theorem applied at `python3`. -/
theorem looks_like_python_prefix_grammar_rules_witness :
    looks_like_python "python3" = true :=
  (looks_like_python_prefix_grammar_rules "python3").1 (by decide) (by decide) (by decide)

/-! ### Claim C5 -/

/-- `tailOk` steps through a cons when the index is positive. -/
theorem tailOk_cons_succ (x : Char) (xs : List Char) (n : Nat) :
    tailOk (x :: xs) (n + 1) = tailOk xs n := rfl

/-- The per-implementation test of `pyMatchAccepts` cannot see past a `w`
the implementation name does not contain: the text after that `w` is
irrelevant. -/
theorem predEq_w :
    ∀ (impl : List Char), ('w' ∈ impl → False) → ∀ (l r : List Char),
      (impl.isPrefixOf (l ++ 'w' :: r) && tailOk (l ++ 'w' :: r) impl.length) =
      (impl.isPrefixOf (l ++ ['w']) && tailOk (l ++ ['w']) impl.length) := by
  intro impl
  induction impl with
  | nil =>
    intro _ l r
    cases l <;> simp [tailOk]
  | cons a as ih =>
    intro hw l r
    have haw : (a == 'w') = false := by
      have hne : a ≠ 'w' := fun h => hw (h ▸ List.mem_cons_self a as)
      simp [hne]
    cases l with
    | nil =>
      simp [List.isPrefixOf, haw]
    | cons b bs =>
      have hw' : 'w' ∈ as → False := fun h => hw (List.mem_cons_of_mem a h)
      simp only [List.cons_append, List.isPrefixOf, List.length_cons, tailOk_cons_succ,
        Bool.and_assoc]
      cases hab : a == b with
      | false => rfl
      | true => simp only [Bool.true_and]; exact ih hw' bs r

/-- `predEq_w` lifted through `List.any`. -/
theorem any_predEq_w (L : List String) (hok : ∀ impl ∈ L, 'w' ∈ impl.data → False)
    (l r : List Char) :
    (L.any (fun impl =>
      impl.data.isPrefixOf (l ++ 'w' :: r) && tailOk (l ++ 'w' :: r) impl.data.length)) =
    (L.any (fun impl =>
      impl.data.isPrefixOf (l ++ ['w']) && tailOk (l ++ ['w']) impl.data.length)) := by
  induction L with
  | nil => rfl
  | cons x xs ih =>
    simp only [List.any_cons]
    rw [predEq_w x.data (hok x (List.mem_cons_self x xs)) l r,
      ih (fun i hi => hok i (List.mem_cons_of_mem x hi))]

/-- What follows the `w` does not change `pyMatchAccepts`. -/
theorem pyMatch_w (l r : List Char) :
    pyMatchAccepts (l ++ 'w' :: r) = pyMatchAccepts (l ++ ['w']) := by
  unfold pyMatchAccepts
  exact any_predEq_w PYTHON_IMPLEMENTATIONS (by decide) l r

/-- A digit test on a non-empty front is unaffected by an appended tail. -/
theorem startsWithDigit_append (xs ys : List Char) (h : xs ≠ []) :
    startsWithDigitB (xs ++ ys) = startsWithDigitB xs := by
  cases xs with
  | nil => exact absurd rfl h
  | cons c cs => rfl

/-- C5: `looks_like_python("pythonw.exe")` is false, and in general any
name consisting of a recognized implementation name immediately followed
by `w` (and then anything) is rejected by the name grammar `RE_MATCHER`. -/
theorem looks_like_python_trailing_w_excluded :
    looks_like_python "pythonw.exe" = false ∧
    ∀ impl ∈ PYTHON_IMPLEMENTATIONS, ∀ r : List Char,
      reMatcherAccepts (String.mk (impl.data ++ 'w' :: r)) = false := by
  refine ⟨by decide, ?_⟩
  intro impl hmem r
  show (startsWithDigitB (impl.data ++ 'w' :: r) ||
    pyMatchAccepts (impl.data ++ 'w' :: r)) = false
  rw [pyMatch_w]
  have hne : impl.data ≠ [] := by
    have hall : ∀ i ∈ PYTHON_IMPLEMENTATIONS, i.data.isEmpty = false := by decide
    intro hcon
    have := hall impl hmem
    rw [hcon] at this
    simp at this
  rw [startsWithDigit_append impl.data ('w' :: r) hne]
  have hd : ∀ i ∈ PYTHON_IMPLEMENTATIONS, startsWithDigitB i.data = false := by decide
  have hm : ∀ i ∈ PYTHON_IMPLEMENTATIONS, pyMatchAccepts (i.data ++ ['w']) = false := by
    decide
  rw [hd impl hmem, hm impl hmem]
  rfl

/-- C5 witness: the general clause applied to `python` followed by
`w.exe`. -/
theorem looks_like_python_trailing_w_excluded_witness :
    reMatcherAccepts (String.mk ("python".data ++ 'w' :: ".exe".data)) = false :=
  looks_like_python_trailing_w_excluded.2 "python" (by decide) ".exe".data

/-! ### Claim C10 -/

/-- `asciiLower` maps no character into or out of the digit range. -/
theorem pyIsDigit_asciiLower (c : Char) : pyIsDigit (asciiLower c) = pyIsDigit c := by
  unfold asciiLower
  split <;> simp_all [pyIsDigit]

/-- `isPrefixOf` is preserved by mapping both sides. -/
theorem isPrefixOf_map (f : Char → Char) :
    ∀ (l₁ l₂ : List Char), l₁.isPrefixOf l₂ = true →
      (l₁.map f).isPrefixOf (l₂.map f) = true := by
  intro l₁
  induction l₁ with
  | nil => intro l₂ _; simp
  | cons a as ih =>
    intro l₂ h
    cases l₂ with
    | nil => simp [List.isPrefixOf] at h
    | cons b bs =>
      simp only [List.isPrefixOf, Bool.and_eq_true, beq_iff_eq] at h
      obtain ⟨rfl, h2⟩ := h
      simp [List.isPrefixOf, ih bs h2]

/-- Two boolean prefixes of the same list are comparable. -/
theorem isPrefixOf_total :
    ∀ (L l₁ l₂ : List Char), l₁.isPrefixOf L = true → l₂.isPrefixOf L = true →
      l₁.isPrefixOf l₂ = true ∨ l₂.isPrefixOf l₁ = true := by
  intro L
  induction L with
  | nil =>
    intro l₁ l₂ h1 h2
    cases l₁ with
    | nil => left; simp
    | cons x xs => simp [List.isPrefixOf] at h1
  | cons a L ih =>
    intro l₁ l₂ h1 h2
    cases l₁ with
    | nil => left; simp
    | cons x xs =>
      cases l₂ with
      | nil => right; simp
      | cons y ys =>
        simp only [List.isPrefixOf, Bool.and_eq_true, beq_iff_eq] at h1 h2
        obtain ⟨rfl, h1⟩ := h1
        obtain ⟨rfl, h2⟩ := h2
        rcases ih xs ys h1 h2 with h | h
        · left; simp [List.isPrefixOf, h]
        · right; simp [List.isPrefixOf, h]

/-- C10: the prefix pre-filter of `looks_like_python` lower-cases the
name, but the grammar regex knows only lower-case implementation names,
so a name whose implementation-name portion contains an upper-case
letter (it starts with a recognized implementation name only after
lower-casing) is always rejected. -/
theorem looks_like_python_uppercase_impl_false (name impl : String)
    (hmem : impl ∈ PYTHON_IMPLEMENTATIONS)
    (hlow : pyStartsWith (pyLower name) impl = true)
    (hnot : pyStartsWith name impl = false) :
    looks_like_python name = false := by
  have hlow' : impl.data.isPrefixOf (name.data.map asciiLower) = true := hlow
  have hnot' : impl.data.isPrefixOf name.data = false := hnot
  have hre : reMatcherAccepts name = false := by
    have h1 : startsWithDigitB name.data = false := by
      have hfc : ∀ i ∈ PYTHON_IMPLEMENTATIONS,
          (match i.data with
           | [] => false
           | c :: _ => !(pyIsDigit c)) = true := by decide
      have hfi := hfc impl hmem
      cases hn : name.data with
      | nil =>
        rw [hn] at hlow'
        cases hi : impl.data with
        | nil => rw [hi] at hfi; simp at hfi
        | cons d ds => rw [hi] at hlow'; simp [List.isPrefixOf] at hlow'
      | cons c cs =>
        rw [hn] at hlow'
        cases hi : impl.data with
        | nil => rw [hi] at hfi; simp at hfi
        | cons d ds =>
          rw [hi] at hlow' hfi
          simp only [List.map_cons, List.isPrefixOf, Bool.and_eq_true, beq_iff_eq] at hlow'
          have hdceq : d = asciiLower c := hlow'.1
          simp only [Bool.not_eq_eq_eq_not, Bool.not_true] at hfi
          show pyIsDigit c = false
          rw [← pyIsDigit_asciiLower c, ← hdceq]
          exact hfi
    have h2 : pyMatchAccepts name.data = false := by
      unfold pyMatchAccepts
      rw [List.any_eq_false]
      intro x hx
      intro hcon
      rw [Bool.and_eq_true] at hcon
      have hpre : x.data.isPrefixOf name.data = true := hcon.1
      have hxlow : (x.data.map asciiLower).isPrefixOf (name.data.map asciiLower) = true :=
        isPrefixOf_map asciiLower x.data name.data hpre
      have hfix : ∀ i ∈ PYTHON_IMPLEMENTATIONS, i.data.map asciiLower = i.data := by decide
      rw [hfix x hx] at hxlow
      have hpair : ∀ a ∈ PYTHON_IMPLEMENTATIONS, ∀ b ∈ PYTHON_IMPLEMENTATIONS,
          a.data.isPrefixOf b.data = true → a = b := by decide
      rcases isPrefixOf_total (name.data.map asciiLower) x.data impl.data hxlow hlow' with h | h
      · have hxe : x = impl := hpair x hx impl hmem h
        rw [hxe] at hpre
        rw [hpre] at hnot'
        simp at hnot'
      · have hxe : impl = x := hpair impl hmem x hx h
        rw [← hxe] at hpre
        rw [hpre] at hnot'
        simp at hnot'
    unfold reMatcherAccepts
    rw [h1, h2]
    rfl
  simp [looks_like_python, hre]

/-- C10 witness: the theorem applied at `Python3.9` with implementation
name `python`. -/
theorem looks_like_python_uppercase_impl_false_witness :
    looks_like_python "Python3.9" = false :=
  looks_like_python_uppercase_impl_false "Python3.9" "python"
    (by decide) (by decide) (by decide)

/-! ### Claim C2 -/

/-- C2: the claim asserts that every input matching the version grammar
makes `parse_python_version` return normally — only `InvalidPythonVersion`
may escape, and the reconstructed canonical string must always satisfy
the strict normalizer.  The input `1rc2.3` refutes this: it matches the
grammar (with `prerelversion = "2.3"`), the strict normalizer rejects it,
and the reconstructed canonical string `1.rc2.3` is rejected by the
strict normalizer as well, whose exception is raised outside the `try`
block and escapes. -/
theorem parse_python_version_fallback_invalid_bug :
    (versionReMatch "1rc2.3").isSome = true ∧
    pep440Accepts "1rc2.3" = false ∧
    parse_python_version "1rc2.3" =
      .error (.invalidVersion "1.rc2.3") := by
  exact ⟨rfl, rfl, rfl⟩

/-! ### Claims C4 and C9 -/

/-- A captured `grabDotDigits` group is a non-empty digit string. -/
theorem grabDotDigits_ne (cs : List Char) (l : List Char)
    (h : (grabDotDigits cs).1 = some l) : l ≠ [] := by
  unfold grabDotDigits at h
  split at h
  · rename_i rest
    by_cases hds : (rest.takeWhile pyIsDigit).isEmpty
    · rw [if_pos hds] at h
      simp at h
    · rw [if_neg hds] at h
      simp only at h
      injection h with h
      subst h
      intro hcon
      rw [hcon] at hds
      simp at hds
  · simp at h

/-- On a successful `version_re` match, the `major` group is always a
non-empty digit string, and the `minor`/`patch` groups are non-empty
whenever they participated. -/
theorem versionReMatch_groups (vs : String) (g : VGroups)
    (h : versionReMatch vs = some g) :
    (∃ d, g.major = some d ∧ d.data ≠ []) ∧
    (∀ d, g.minor = some d → d.data ≠ []) ∧
    (∀ d, g.patch = some d → d.data ≠ []) := by
  simp only [versionReMatch] at h
  split at h
  · exact absurd h (by simp)
  · rename_i hmaj
    injection h with h
    subst h
    refine ⟨⟨String.mk (vs.data.takeWhile pyIsDigit), rfl, ?_⟩, ?_, ?_⟩
    · intro hcon
      have : (vs.data.takeWhile pyIsDigit).isEmpty = true := by
        simp only at hcon
        rw [hcon]
        rfl
      exact hmaj this
    · intro d hd
      simp only [Option.map_eq_some'] at hd
      obtain ⟨l, hl, hld⟩ := hd
      have := grabDotDigits_ne _ _ hl
      rw [← hld]
      simpa using this
    · intro d hd
      simp only [Option.map_eq_some'] at hd
      obtain ⟨l, hl, hld⟩ := hd
      have := grabDotDigits_ne _ _ hl
      rw [← hld]
      simpa using this

/-- C4: whenever `parse_python_version` returns a result, its `version`
field is present (non-`None`) and its `major` field is a present integer
— the version grammar requires a leading numeric component. -/
theorem parse_python_version_version_major_present (s : String) (r : PyVersionInfo)
    (h : parse_python_version s = .ok r) :
    r.version ≠ none ∧ r.major ≠ none := by
  simp only [parse_python_version, parsePostStrip] at h
  cases hm : versionReMatch (stripDebug s).1 with
  | none => simp [hm] at h
  | some g =>
    simp only [hm] at h
    obtain ⟨⟨d, hd, hdne⟩, -, -⟩ := versionReMatch_groups _ _ hm
    have hr : ∃ v, r = mkInfo g (stripDebug s).2 v := by
      split at h
      · injection h with h
        exact ⟨_, h.symm⟩
      · split at h
        · injection h with h
          exact ⟨_, h.symm⟩
        · exact absurd h (by simp)
    obtain ⟨v, rfl⟩ := hr
    constructor
    · simp [mkInfo]
    · have hde : d.data.isEmpty = false := by simpa using hdne
      simp [mkInfo, optIntOfGroup, hd, hde]

/-- C4 witness: the theorem applied at `3.9.1`. -/
theorem parse_python_version_version_major_present_witness :
    ∃ r, parse_python_version "3.9.1" = .ok r ∧ r.version ≠ none ∧ r.major ≠ none :=
  ⟨_, rfl, parse_python_version_version_major_present "3.9.1" _ rfl⟩

/-- C9: for every accepted input, a `minor`/`patch` group absent from the
grammar match yields `None` (never `0`) in the result, and each of
`major`/`minor`/`patch` is the integer value of its group whenever the
group is present. -/
theorem parse_python_version_minor_patch_groups (s : String) (r : PyVersionInfo)
    (h : parse_python_version s = .ok r) :
    ∃ g, versionReMatch (stripDebug s).1 = some g ∧
      (g.minor = none → r.minor = none) ∧
      (∀ d, g.minor = some d → r.minor = some (digitsToNat d.data)) ∧
      (g.patch = none → r.patch = none) ∧
      (∀ d, g.patch = some d → r.patch = some (digitsToNat d.data)) ∧
      (∀ d, g.major = some d → r.major = some (digitsToNat d.data)) := by
  simp only [parse_python_version, parsePostStrip] at h
  cases hm : versionReMatch (stripDebug s).1 with
  | none => simp [hm] at h
  | some g =>
    simp only [hm] at h
    obtain ⟨⟨d0, hd0, hd0ne⟩, hminor, hpatch⟩ := versionReMatch_groups _ _ hm
    have hr : ∃ v, r = mkInfo g (stripDebug s).2 v := by
      split at h
      · injection h with h
        exact ⟨_, h.symm⟩
      · split at h
        · injection h with h
          exact ⟨_, h.symm⟩
        · exact absurd h (by simp)
    obtain ⟨v, rfl⟩ := hr
    refine ⟨g, rfl, ?_, ?_, ?_, ?_, ?_⟩
    · intro hnone
      simp [mkInfo, optIntOfGroup, hnone]
    · intro d hd
      have hde : d.data.isEmpty = false := by simpa using hminor d hd
      simp [mkInfo, optIntOfGroup, hd, hde]
    · intro hnone
      simp [mkInfo, optIntOfGroup, hnone]
    · intro d hd
      have hde : d.data.isEmpty = false := by simpa using hpatch d hd
      simp [mkInfo, optIntOfGroup, hd, hde]
    · intro d hd
      rw [hd0] at hd
      injection hd with hd
      subst hd
      have hde : d0.data.isEmpty = false := by simpa using hd0ne
      simp [mkInfo, optIntOfGroup, hd0, hde]

/-- C9 witness: the theorem applied at `3.9`, whose match has a `minor`
group but no `patch` group. -/
theorem parse_python_version_minor_patch_groups_witness :
    ∃ g, versionReMatch (stripDebug "3.9").1 = some g ∧
      (g.minor = none →
        ({ major := some 3, minor := some 9, patch := none, is_postrelease := false,
           is_prerelease := false, is_devrelease := false, is_debug := false,
           version := some "3.9" } : PyVersionInfo).minor = none) ∧
      (∀ d, g.minor = some d →
        ({ major := some 3, minor := some 9, patch := none, is_postrelease := false,
           is_prerelease := false, is_devrelease := false, is_debug := false,
           version := some "3.9" } : PyVersionInfo).minor = some (digitsToNat d.data)) ∧
      (g.patch = none →
        ({ major := some 3, minor := some 9, patch := none, is_postrelease := false,
           is_prerelease := false, is_devrelease := false, is_debug := false,
           version := some "3.9" } : PyVersionInfo).patch = none) ∧
      (∀ d, g.patch = some d →
        ({ major := some 3, minor := some 9, patch := none, is_postrelease := false,
           is_prerelease := false, is_devrelease := false, is_debug := false,
           version := some "3.9" } : PyVersionInfo).patch = some (digitsToNat d.data)) ∧
      (∀ d, g.major = some d →
        ({ major := some 3, minor := some 9, patch := none, is_postrelease := false,
           is_prerelease := false, is_devrelease := false, is_debug := false,
           version := some "3.9" } : PyVersionInfo).major = some (digitsToNat d.data)) :=
  parse_python_version_minor_patch_groups "3.9" _ rfl

/-! ### Claim C8 -/

/-- A boolean prefix gives an append decomposition. -/
theorem exists_append_of_isPrefixOf :
    ∀ {l₁ l₂ : List Char}, l₁.isPrefixOf l₂ = true → ∃ t, l₂ = l₁ ++ t := by
  intro l₁
  induction l₁ with
  | nil => intro l₂ _; exact ⟨l₂, rfl⟩
  | cons a as ih =>
    intro l₂ h
    cases l₂ with
    | nil => simp [List.isPrefixOf] at h
    | cons b bs =>
      simp only [List.isPrefixOf, Bool.and_eq_true, beq_iff_eq] at h
      obtain ⟨rfl, h2⟩ := h
      obtain ⟨t, ht⟩ := ih h2
      exact ⟨t, by rw [ht]; rfl⟩

/-- A boolean suffix gives an append decomposition. -/
theorem exists_append_of_isSuffixOf {l₁ l₂ : List Char}
    (h : l₁.isSuffixOf l₂ = true) : ∃ t, l₂ = t ++ l₁ := by
  obtain ⟨t, ht⟩ := exists_append_of_isPrefixOf h
  refine ⟨t.reverse, ?_⟩
  have := congrArg List.reverse ht
  simpa [List.reverse_append] using this

/-- `rpartition("-")` on a string ending in `-debug` keeps exactly the
part before that final dash. -/
theorem rpartAux_append_debug (t : List Char) :
    rpartAux '-' (t ++ ['-', 'd', 'e', 'b', 'u', 'g']) = some t := by
  induction t with
  | nil => rfl
  | cons c cs ih => simp [rpartAux, ih]

/-- C8: an input ending in `-debug` has that suffix stripped — the body
is run on the first `length - 6` characters with `is_debug` recorded as
`true` — and concretely `parse_python_version("2.7.18-debug")` yields
`is_debug = True`, `major = 2`, `minor = 7`, `patch = 18`. -/
theorem parse_python_version_debug_suffix :
    (∀ s : String, pyEndsWith s "-debug" = true →
      stripDebug s = (String.mk (s.data.take (s.data.length - 6)), true) ∧
      parse_python_version s =
        parsePostStrip (String.mk (s.data.take (s.data.length - 6))) true) ∧
    parse_python_version "2.7.18-debug" = .ok
      { major := some 2, minor := some 7, patch := some 18,
        is_postrelease := false, is_prerelease := false, is_devrelease := false,
        is_debug := true, version := some "2.7.18" } := by
  constructor
  · intro s hdbg
    have hsfx : ("-debug".data).isSuffixOf s.data = true := hdbg
    obtain ⟨t, ht⟩ := exists_append_of_isSuffixOf hsfx
    have hdata : "-debug".data = ['-', 'd', 'e', 'b', 'u', 'g'] := rfl
    rw [hdata] at ht
    have hstrip : stripDebug s = (String.mk (s.data.take (s.data.length - 6)), true) := by
      unfold stripDebug
      rw [if_pos hdbg]
      unfold rpartitionHead
      rw [ht, rpartAux_append_debug]
      have hlen : (t ++ ['-', 'd', 'e', 'b', 'u', 'g']).length - 6 = t.length := by
        simp
      rw [hlen, List.take_left]
    exact ⟨hstrip, by
      unfold parse_python_version
      rw [hstrip]⟩
  · rfl

/-- C8 witness: the stripping clause applied at `3.6-debug`. -/
theorem parse_python_version_debug_suffix_witness :
    parse_python_version "3.6-debug" =
      parsePostStrip (String.mk ("3.6-debug".data.take ("3.6-debug".data.length - 6))) true :=
  (parse_python_version_debug_suffix.1 "3.6-debug" (by decide)).2

end PythonFinder
